import Mathlib

/-!
Verification development for the question-generation service.

The definitions below are a shallow embedding of the Python source:
* `calculate_question_distribution` embeds `main/app.py`
  (largest-remainder allocator, lines 113-161);
* the quota grouper and sub-distribution construction embed
  `main/app.py` lines 329-364;
* the result-processing / audit pipeline embeds `main/app.py`
  lines 388-507;
* `generate_content_summary_sync` embeds
  `src/utils/summary_helper.py` lines 149-193;
* `normalize_distribution` embeds `src/utils/helpers.py` lines 167-183;
* the artifact-name builders embed `main/app.py` lines 220-234 and
  `src/utils/utils_fib.py` lines 297-306.

Python floats are modelled as rationals (`ℚ`), Python dicts as
insertion-ordered association lists with overwrite-on-existing-key
semantics, and external collaborators (OpenSearch retrieval, per-kind
synthesis) as explicit function parameters.
-/

namespace QuestionGen

/-- A Python `Dict[str, float]`: insertion-ordered association list with
rational weights. -/
abbrev Dist := List (String × ℚ)

/-- Python `int(x)` on a float: truncation toward zero. -/
def pyInt (x : ℚ) : ℤ := if x < 0 then -⌊-x⌋ else ⌊x⌋

/-- One entry of `fractional_distribution` in
`calculate_question_distribution` (app.py lines 126-132). -/
structure Combo where
  question_type : String
  difficulty : String
  blooms_level : String
  exact_count : ℚ
  count : ℤ
deriving DecidableEq, Repr

/-- One entry of the cleaned-up `distribution` dict returned by
`calculate_question_distribution` (app.py lines 150-159). -/
structure FinalCombo where
  question_type : String
  difficulty : String
  blooms_level : String
  count : ℤ
deriving DecidableEq, Repr

/-- Python `k in d` for a dict modelled as an association list. -/
def dictMem (m : List (String × α)) (k : String) : Bool :=
  m.any fun p => p.1 = k

/-- Python `d[k] = v`: overwrite in place if the key exists (keeping its
position), otherwise append at the end. -/
def dictInsert (m : List (String × α)) (k : String) (v : α) : List (String × α) :=
  if dictMem m k then m.map (fun p => if p.1 = k then (k, v) else p)
  else m ++ [(k, v)]

/-- Python `d.keys()` in insertion order. -/
def dictKeys (m : List (String × α)) : List String := m.map Prod.fst

/-- Python `d[k]` as an optional lookup. -/
def dictGet (m : List (String × α)) (k : String) : Option α :=
  (m.find? fun p => p.1 = k).map Prod.snd

/-- Python `d[k] = f(d[k])` for a key already present. -/
def dictModify (m : List (String × α)) (k : String) (f : α → α) : List (String × α) :=
  m.map fun p => if p.1 = k then (p.1, f p.2) else p

/-- The nested loops of app.py lines 121-123: every
(question type, difficulty, blooms) triple in construction order. -/
def comboTriples (question_type_dist difficulty_dist blooms_dist : Dist) :
    List ((String × ℚ) × (String × ℚ) × (String × ℚ)) :=
  question_type_dist.flatMap fun q =>
    difficulty_dist.flatMap fun d =>
      blooms_dist.map fun b => (q, d, b)

/-- The dict key `f"{q_type}_{difficulty}_{blooms}"` (app.py line 125). -/
def comboKey (t : (String × ℚ) × (String × ℚ) × (String × ℚ)) : String :=
  t.1.1 ++ "_" ++ t.2.1.1 ++ "_" ++ t.2.2.1

/-- The exact share `total_questions * q_ratio * d_ratio * b_ratio`
(app.py line 124). -/
def exactCount (total_questions : ℤ)
    (t : (String × ℚ) × (String × ℚ) × (String × ℚ)) : ℚ :=
  (total_questions : ℚ) * t.1.2 * t.2.1.2 * t.2.2.2

/-- The dict value stored for one combination (app.py lines 126-132);
`count` is the Python `int(exact_count)` floor value. -/
def mkCombo (total_questions : ℤ)
    (t : (String × ℚ) × (String × ℚ) × (String × ℚ)) : Combo :=
  { question_type := t.1.1, difficulty := t.2.1.1, blooms_level := t.2.2.1,
    exact_count := exactCount total_questions t,
    count := pyInt (exactCount total_questions t) }

/-- The `fractional_distribution` dict after the nested loops of
app.py lines 118-132. -/
def fractional_distribution (total_questions : ℤ)
    (question_type_dist difficulty_dist blooms_dist : Dist) :
    List (String × Combo) :=
  (comboTriples question_type_dist difficulty_dist blooms_dist).foldl
    (fun m t => dictInsert m (comboKey t) (mkCombo total_questions t)) []

/-- `current_total = sum(item['count'] ...)` (app.py line 135). -/
def current_total (m : List (String × Combo)) : ℤ :=
  (m.map fun p => p.2.count).sum

/-- `remainder = total_questions - current_total` (app.py line 136). -/
def remainder (total_questions : ℤ) (m : List (String × Combo)) : ℤ :=
  total_questions - current_total m

/-- The sort key `exact_count - count` of app.py line 141, looked up by
dict key. -/
def fracPart (m : List (String × Combo)) (k : String) : ℚ :=
  match dictGet m k with
  | some c => c.exact_count - (c.count : ℚ)
  | none => 0

/-- `sorted_keys` (app.py lines 139-143): keys sorted by descending
fractional part.  Python's `sorted` is stable, and a stable sort's
output is uniquely determined by the comparator and the input order, so
the stable `insertionSort` is the faithful model of
`sorted(keys, key=fracpart, reverse=True)`. -/
def sorted_keys (m : List (String × Combo)) : List String :=
  (dictKeys m).insertionSort fun k1 k2 => fracPart m k2 ≤ fracPart m k1

/-- The remainder loop of app.py lines 146-148: add 1 to the count of
each of the given keys in order. -/
def distributeRemainder (m : List (String × Combo)) (ks : List String) :
    List (String × Combo) :=
  ks.foldl (fun acc k => dictModify acc k fun c => { c with count := c.count + 1 }) m

/-- `calculate_question_distribution` (app.py lines 113-161). -/
def calculate_question_distribution (total_questions : ℤ)
    (question_type_dist difficulty_dist blooms_dist : Dist) :
    List (String × FinalCombo) :=
  let m := fractional_distribution total_questions question_type_dist
    difficulty_dist blooms_dist
  let m2 := distributeRemainder m
    ((sorted_keys m).take (remainder total_questions m).toNat)
  (m2.filter fun p => 0 < p.2.count).map fun p =>
    (p.1, { question_type := p.2.question_type, difficulty := p.2.difficulty,
            blooms_level := p.2.blooms_level, count := p.2.count })

/-- Sum of the counts in the allocator's returned dict. -/
def total_count (d : List (String × FinalCombo)) : ℤ :=
  (d.map fun p => p.2.count).sum

/-! ### Quota grouper (app.py lines 329-364) -/

/-- One step of building `type_groups` (app.py lines 330-334): append the
config to its question type's list, creating the group on first sight. -/
def groupAdd (g : List (String × List FinalCombo)) (k : String) (c : FinalCombo) :
    List (String × List FinalCombo) :=
  if dictMem g k then g.map (fun p => if p.1 = k then (p.1, p.2 ++ [c]) else p)
  else g ++ [(k, [c])]

/-- `type_groups` (app.py lines 329-334): the allocator's entries grouped
by question type, in first-appearance order. -/
def type_groups (dist : List (String × FinalCombo)) :
    List (String × List FinalCombo) :=
  dist.foldl (fun g p => groupAdd g p.2.question_type p.2) []

/-- `total_for_type = sum(config['count'] ...)` (app.py line 349). -/
def total_for_type (configs : List FinalCombo) : ℤ :=
  (configs.map fun c => c.count).sum

/-- Python `d[k] = d.get-or-0 + v`: the `if k not in d: d[k] = 0` /
`d[k] += v` pattern of app.py lines 358-364. -/
def addAt (m : Dist) (k : String) (v : ℚ) : Dist :=
  if dictMem m k then m.map (fun p => if p.1 = k then (p.1, p.2 + v) else p)
  else m ++ [(k, v)]

/-- `difficulty_dist_for_type` (app.py lines 350-364): sum each config's
`count / total_for_type` into its difficulty's slot. -/
def difficulty_dist_for_type (configs : List FinalCombo) : Dist :=
  configs.foldl
    (fun dd c => addAt dd c.difficulty ((c.count : ℚ) / (total_for_type configs : ℚ)))
    []

/-- `blooms_dist_for_type` (app.py lines 350-364). -/
def blooms_dist_for_type (configs : List FinalCombo) : Dist :=
  configs.foldl
    (fun bd c => addAt bd c.blooms_level ((c.count : ℚ) / (total_for_type configs : ℚ)))
    []

/-- Modelled from the spec: the source has no re-expansion code; spec §8
asks that a kind's sub-distributions, re-expanded "via the same
largest-remainder method with the kind's total", reproduce that kind's
per-combination counts.  The same method is
`calculate_question_distribution`, run with the kind as the single
question type. -/
def reexpandKind (k : String) (configs : List FinalCombo) :
    List (String × FinalCombo) :=
  calculate_question_distribution (total_for_type configs) [(k, 1)]
    (difficulty_dist_for_type configs) (blooms_dist_for_type configs)

/-! ### Shared context provider (summary_helper.py lines 149-193)

The OpenSearch retrieval (`retrieve_chapter_chunks`) is an external
collaborator; its outcome is a parameter: `.error e` models the `try`
block raising with message `e`, `.ok none` models a `None` return from
`execute_search`, `.ok (some s)` a retrieved content string.  Text is
modelled as `List Char`. -/

/-- The fixed message of summary_helper.py line 177. -/
def noContentMsg : List Char :=
  "No content available for the specified chapter.".data

/-- The marker appended at summary_helper.py line 186. -/
def truncationMarker : List Char :=
  "\n[Summary truncated - full content available for question generation]".data

/-- The head of the error message of summary_helper.py line 193. -/
def errHead : List Char :=
  "Error retrieving content for chapter ".data

/-- `generate_content_summary_sync` (summary_helper.py lines 149-193). -/
def generate_content_summary_sync (chapter_id : List Char)
    (retrieval : Except (List Char) (Option (List Char))) : List Char :=
  match retrieval with
  | .error e => errHead ++ chapter_id ++ ": ".data ++ e
  | .ok none => noContentMsg
  | .ok (some chapter_content) =>
    if chapter_content = [] then noContentMsg
    else
      let summary_length := min 2000 chapter_content.length
      let content_summary := chapter_content.take summary_length
      if summary_length < chapter_content.length then
        content_summary ++ truncationMarker
      else content_summary

/-! ### Worker results, aggregation and audit writes
(app.py lines 163-248, 388-507) -/

/-- One generated question as the audit path reads it
(app.py lines 593-599). -/
structure Question where
  question_id : String
  difficulty : String
  blooms_level : String
deriving DecidableEq, Repr

/-- The parsed contents of a generated JSON file, i.e. the list under its
`response` key. -/
abbrev QData := List Question

/-- The tuple returned by `generate_single_question_type_sync`
(app.py lines 241 and 248): `(question_type, file_name, question_data,
error)`. -/
structure WorkerRes where
  question_type : String
  file_name : Option String
  question_data : Option QData
  error : Option String
deriving DecidableEq, Repr

/-- Python truthiness of the `error` slot (`if error:` at app.py
line 395): a non-`None`, non-empty string. -/
def errTruthy : Option String → Bool
  | some s => s ≠ ""
  | none => false

/-- Outcome of the result-processing loop of app.py lines 389-399:
either all results consumed, or stopped at the first truthy error with
the entries accumulated so far. -/
inductive ProcessOut where
  | ok (files : List (Option String)) (data : List (String × Option QData))
  | err (files : List (Option String)) (data : List (String × Option QData))
      (msg : String)
deriving DecidableEq, Repr

/-- The loop of app.py lines 389-399, threading `files_generated` and
`all_question_data`; raising is modelled by stopping with `.err`. -/
def process_results : List WorkerRes → List (Option String) →
    List (String × Option QData) → ProcessOut
  | [], files, data => .ok files data
  | r :: rest, files, data =>
    if errTruthy r.error then
      .err files data ("Error in " ++ r.question_type ++ ": " ++ r.error.getD "")
    else
      process_results rest (files ++ [r.file_name])
        (dictInsert data r.question_type r.question_data)

/-- The DynamoDB history item written in the `finally` block
(app.py lines 441-470); only the fields the claims are about. -/
structure HistoryItem where
  files_generated : List (Option String)
  status : String
  error_message : String
  response_data : List (String × Option QData)
deriving DecidableEq, Repr

/-- What the client receives: the success `QuestionResponse`
(app.py lines 405-418) or the `HTTPException` detail string
(app.py line 440). -/
inductive ClientResponse where
  | success (files_generated : List (Option String))
      (data : List (String × Option QData))
  | httpError (detail : String)
deriving DecidableEq, Repr

/-- One `QUESTION_GENERATED` audit event (app.py lines 588-611). -/
structure QuestionEvent where
  question_type : String
  questionIndex : ℕ
  questionId : String
  difficulty : String
  blooms_level : String
deriving DecidableEq, Repr

/-- `log_question_events` over all entries of `all_question_data`
(app.py lines 494-503 and 575-611); a `None` question payload writes no
events (`if not question_data: return`). -/
def question_events (data : List (String × Option QData)) : List QuestionEvent :=
  data.flatMap fun p =>
    match p.2 with
    | none => []
    | some qs =>
      (List.range qs.length).map fun i =>
        { question_type := p.1, questionIndex := i,
          questionId := ((qs.get? i).map Question.question_id).getD "unknown",
          difficulty := ((qs.get? i).map Question.difficulty).getD "unknown",
          blooms_level := ((qs.get? i).map Question.blooms_level).getD "unknown" }

/-- Everything observable after the request: status, the client
response, the history audit record, and the per-question audit events. -/
structure Outcome where
  status : String
  response : ClientResponse
  history : HistoryItem
  events : List QuestionEvent
deriving DecidableEq, Repr

/-- The aggregation and audit flow of app.py lines 388-507: on success
the response and history carry the collected files and data and the
per-question events are logged; on a worker failure the `except` branch
sets status `error`, the history record keeps whatever had been
accumulated, the client gets an `HTTPException`, and no question events
are logged. -/
def handle_results (results : List WorkerRes) : Outcome :=
  match process_results results [] [] with
  | .ok files data =>
    { status := "success",
      response := .success files data,
      history := { files_generated := files, status := "success",
                   error_message := "", response_data := data },
      events := question_events data }
  | .err files data msg =>
    { status := "error",
      response := .httpError ("Error generating questions: " ++ msg),
      history := { files_generated := files, status := "error",
                   error_message := msg, response_data := data },
      events := [] }

/-! ### The orchestrator pipeline (app.py lines 302-399) -/

/-- The arguments handed to one `generate_single_question_type_sync`
worker (app.py lines 366-378). -/
structure WorkerCall where
  question_type : String
  configs : List FinalCombo
  content_summary : List Char
  chapter_id : List Char
  difficulty_distribution : Dist
  blooms_distribution : Dist
deriving DecidableEq, Repr

/-- Observable scheduling events of one request: the single shared
summary fetch and each worker submission. -/
inductive TraceEv where
  | fetch
  | submit (question_type : String)
deriving DecidableEq, Repr

/-- Everything the pipeline model exposes: the scheduling trace, the
shared summary, the submitted worker calls, and the final outcome. -/
structure PipelineOut where
  trace : List TraceEv
  summary : List Char
  spawned : List WorkerCall
  outcome : Outcome
deriving Repr

/-- The body of `generate_questions` (app.py lines 302-399): fetch the
shared summary once, allocate, group by type, submit one worker per
group (each receiving the same summary object), gather the results in
submission order, then aggregate.  The per-kind synthesis is the
external collaborator `runWorker`. -/
def generate_questions_model (total_questions : ℤ)
    (question_type_dist difficulty_dist blooms_dist : Dist)
    (chapter_id : List Char)
    (retrieval : Except (List Char) (Option (List Char)))
    (runWorker : WorkerCall → WorkerRes) : PipelineOut :=
  let content_summary := generate_content_summary_sync chapter_id retrieval
  let question_dist := calculate_question_distribution total_questions
    question_type_dist difficulty_dist blooms_dist
  let groups := type_groups question_dist
  let calls := groups.map fun g =>
    { question_type := g.1, configs := g.2, content_summary := content_summary,
      chapter_id := chapter_id,
      difficulty_distribution := difficulty_dist_for_type g.2,
      blooms_distribution := blooms_dist_for_type g.2 : WorkerCall }
  let results := calls.map runWorker
  { trace := TraceEv.fetch :: calls.map (fun c => TraceEv.submit c.question_type),
    summary := content_summary,
    spawned := calls,
    outcome := handle_results results }

/-! ### Artifact names (app.py lines 220-234, utils_fib.py lines 297-306)
and distribution helpers (helpers.py) -/

/-- The serialization `f"{diff}{int(prop*100)}"` joined with `_`
(app.py lines 221-222, utils_fib.py lines 298-299). -/
def distSerialization (d : Dist) : String :=
  "_".intercalate (d.map fun p => p.1 ++ toString (pyInt (p.2 * 100)))

/-- The `learning_objectives` request field: absent, a single string, or
a list of strings. -/
abbrev Objectives := Option (String ⊕ List String)

/-- Python truthiness of `learning_objectives`. -/
def loTruthy : Objectives → Bool
  | none => false
  | some (.inl s) => s ≠ ""
  | some (.inr l) => l ≠ []

/-- The `obj_str` of app.py line 226 / utils_fib.py line 303. -/
def objStr : Objectives → String
  | none => "lo"
  | some (.inl s) => "lo" ++ s
  | some (.inr l) => "lo" ++ "_".intercalate l

/-- Modelled from the spec: `src/utils/constants.py` is not in the
sources, so whether `'learning_objectives'` is among `metadata_keys` is
unknown; the spec's artifact-name grammar
`..._[_{objective-tag}]_{kindSuffix}` includes the objective tag
whenever the filter is present, so the key is taken to be available
(and `available_keys` non-empty, hence truthy). -/
def available_keys_has_lo : Bool := true

/-- The filename suffix chosen per question type (app.py lines 229-234,
matching `generate_fill_in_blank`'s `_fib.json`).  The three enum
values are the only reachable ones. -/
def kindSuffix (question_type : String) : String :=
  if question_type = "mcq" then "_mcqs.json"
  else if question_type = "fib" then "_fib.json"
  else if question_type = "tf" then "_tf.json"
  else ""

/-- The file name computed inside `generate_single_question_type_sync`
(app.py lines 220-234). -/
def app_file_name (question_type : String) (chapter_id : String)
    (difficulty_distribution blooms_distribution : Dist)
    (learning_objectives : Objectives) : String :=
  let difficulty_str := distSerialization difficulty_distribution
  let blooms_str := distSerialization blooms_distribution
  let filename_parts := [chapter_id, difficulty_str, blooms_str] ++
    (if loTruthy learning_objectives && available_keys_has_lo then
      [objStr learning_objectives] else [])
  "_".intercalate filename_parts ++ kindSuffix question_type

/-- The file name computed inside `generate_fill_in_blank`
(utils_fib.py lines 297-306). -/
def fib_file_name (chapter_id : String)
    (difficulty_distribution blooms_taxonomy_distribution : Dist)
    (learning_objectives : Objectives) : String :=
  let difficulty_str := distSerialization difficulty_distribution
  let blooms_str := distSerialization blooms_taxonomy_distribution
  let filename_parts := [chapter_id, difficulty_str, blooms_str] ++
    (if loTruthy learning_objectives && available_keys_has_lo then
      [objStr learning_objectives] else [])
  "_".intercalate filename_parts ++ "_fib.json"

/-- `normalize_distribution` (helpers.py lines 167-183): divide by the
sum, or return the uniform distribution when the sum is zero. -/
def normalize_distribution (distribution : Dist) : Dist :=
  let total := (distribution.map Prod.snd).sum
  if total = 0 then
    distribution.map fun p => (p.1, 1 / (distribution.length : ℚ))
  else
    distribution.map fun p => (p.1, p.2 / total)

/-! ### Concrete fixtures used by the claims below -/

/-- A two-worker run in which the first (mcq) worker succeeds and the
second (fib) worker fails. -/
def siblingRun : List WorkerRes :=
  [{ question_type := "mcq", file_name := some "f1",
     question_data := some [{ question_id := "id1", difficulty := "basic",
                              blooms_level := "remember" }],
     error := none },
   { question_type := "fib", file_name := none, question_data := none,
     error := some "boom" }]

/-- A worker stub that always succeeds. -/
def alwaysOkWorker : WorkerCall → WorkerRes := fun c =>
  { question_type := c.question_type, file_name := some "f",
    question_data := some [], error := none }

/-- The allocation for N = 4 over one kind and two uniform three-label
axes: every exact share is 4/9, so the remainder of 4 goes to the first
four combinations in construction order. -/
def C5origD : List (String × FinalCombo) :=
  calculate_question_distribution 4 [("q", 1)]
    [("d1", (1:ℚ)/3), ("d2", (1:ℚ)/3), ("d3", (1:ℚ)/3)]
    [("b1", (1:ℚ)/3), ("b2", (1:ℚ)/3), ("b3", (1:ℚ)/3)]

/-- The kind `q`'s quota group inside `C5origD`. -/
def C5group : List FinalCombo :=
  [{ question_type := "q", difficulty := "d1", blooms_level := "b1", count := 1 },
   { question_type := "q", difficulty := "d1", blooms_level := "b2", count := 1 },
   { question_type := "q", difficulty := "d1", blooms_level := "b3", count := 1 },
   { question_type := "q", difficulty := "d2", blooms_level := "b1", count := 1 }]

/-! ### General lemmas -/

theorem sum_map_mul_left_q (l : List α) (f : α → ℚ) (c : ℚ) :
    (l.map fun x => c * f x).sum = c * (l.map f).sum := by
  induction l with
  | nil => simp
  | cons a l ih => simp [ih, mul_add]

theorem sum_map_div_q (l : List α) (f : α → ℚ) (c : ℚ) :
    (l.map fun x => f x / c).sum = (l.map f).sum / c := by
  induction l with
  | nil => simp
  | cons a l ih => simp [ih, add_div]

theorem sum_map_const_q (l : List α) (c : ℚ) :
    (l.map fun _ => c).sum = (l.length : ℚ) * c := by
  induction l with
  | nil => simp
  | cons a l ih =>
    simp [ih]
    ring

/-- Keys of a dict-model are distinct (true of every Python dict). -/
def keysNodup (m : List (String × α)) : Prop := (m.map Prod.fst).Nodup

theorem dictMem_iff_mem_keys (m : List (String × α)) (k : String) :
    dictMem m k = true ↔ k ∈ m.map Prod.fst := by
  simp [dictMem, List.any_eq_true, List.mem_map]

theorem dictInsert_of_not_mem (m : List (String × α)) (k : String) (v : α)
    (h : k ∉ m.map Prod.fst) : dictInsert m k v = m ++ [(k, v)] := by
  rw [dictInsert, if_neg]
  rw [Bool.not_eq_true, ← Bool.not_eq_true, dictMem_iff_mem_keys]
  exact h

theorem foldl_dictInsert_fresh (f : β → String) (g : β → α) :
    ∀ (ts : List β) (m : List (String × α)),
      (m.map Prod.fst ++ ts.map f).Nodup →
      ts.foldl (fun acc t => dictInsert acc (f t) (g t)) m =
        m ++ ts.map fun t => (f t, g t) := by
  intro ts
  induction ts with
  | nil => intro m _; simp
  | cons t ts ih =>
    intro m h
    simp only [List.map_cons] at h
    have hparts := List.nodup_append.mp h
    have hnotin : f t ∉ m.map Prod.fst := fun hx =>
      hparts.2.2 hx (List.mem_cons_self _ _)
    rw [List.foldl_cons, dictInsert_of_not_mem m (f t) (g t) hnotin,
      ih (m ++ [(f t, g t)]) ?_]
    · simp
    · rw [List.map_append]
      have : (m.map Prod.fst ++ [(f t, g t)].map Prod.fst) ++ ts.map f =
          m.map Prod.fst ++ (f t :: ts.map f) := by simp
      rw [this]
      exact h

/-- With pairwise-distinct combination keys, the dict built by the
nested loops is just the association list of all combinations in
construction order. -/
theorem fractional_distribution_eq (total_questions : ℤ)
    (question_type_dist difficulty_dist blooms_dist : Dist)
    (h : ((comboTriples question_type_dist difficulty_dist blooms_dist).map
      comboKey).Nodup) :
    fractional_distribution total_questions question_type_dist difficulty_dist
        blooms_dist =
      (comboTriples question_type_dist difficulty_dist blooms_dist).map
        fun t => (comboKey t, mkCombo total_questions t) := by
  have := foldl_dictInsert_fresh comboKey (mkCombo total_questions)
    (comboTriples question_type_dist difficulty_dist blooms_dist) [] (by simpa using h)
  simpa [fractional_distribution] using this

theorem sum_map_flatMap (l : List α) (f : α → List β) (g : β → ℚ) :
    ((l.flatMap f).map g).sum = (l.map fun a => ((f a).map g).sum).sum := by
  induction l with
  | nil => simp
  | cons a l ih => simp [List.flatMap_cons, ih]

theorem sum_map_sub_q (l : List α) (f g : α → ℚ) :
    (l.map fun x => f x - g x).sum = (l.map f).sum - (l.map g).sum := by
  induction l with
  | nil => simp
  | cons a l ih =>
    simp only [List.map_cons, List.sum_cons, ih]
    ring

/-- Membership in the combination-triple list is componentwise
membership. -/
theorem mem_comboTriples {question_type_dist difficulty_dist blooms_dist : Dist}
    {t : (String × ℚ) × (String × ℚ) × (String × ℚ)} :
    t ∈ comboTriples question_type_dist difficulty_dist blooms_dist ↔
      t.1 ∈ question_type_dist ∧ t.2.1 ∈ difficulty_dist ∧
        t.2.2 ∈ blooms_dist := by
  rcases t with ⟨q, d, b⟩
  simp only [comboTriples, List.mem_flatMap, List.mem_map]
  constructor
  · rintro ⟨q', hq, d', hd, b', hb, heq⟩
    injection heq with h1 h2
    injection h2 with h3 h4
    subst h1; subst h3; subst h4
    exact ⟨hq, hd, hb⟩
  · rintro ⟨hq, hd, hb⟩
    exact ⟨q, hq, d, hd, b, hb, rfl⟩

/-- The exact shares over all combinations sum to
`total * (sum of kind weights) * (sum of difficulty weights) *
(sum of blooms weights)`. -/
theorem sum_exactCount (total_questions : ℤ)
    (question_type_dist difficulty_dist blooms_dist : Dist) :
    ((comboTriples question_type_dist difficulty_dist blooms_dist).map
      (exactCount total_questions)).sum =
      (total_questions : ℚ) * (question_type_dist.map Prod.snd).sum *
        (difficulty_dist.map Prod.snd).sum * (blooms_dist.map Prod.snd).sum := by
  rw [comboTriples, sum_map_flatMap]
  have inner2 : ∀ (q d : String × ℚ),
      ((blooms_dist.map fun b => (q, d, b)).map (exactCount total_questions)).sum =
        ((total_questions : ℚ) * q.2 * d.2) * (blooms_dist.map Prod.snd).sum := by
    intro q d
    rw [List.map_map]
    have hfn : (exactCount total_questions ∘ fun b => (q, d, b)) =
        fun b : String × ℚ => ((total_questions : ℚ) * q.2 * d.2) * b.2 := by
      funext b
      simp [exactCount, Function.comp]
    rw [hfn]
    exact sum_map_mul_left_q blooms_dist Prod.snd _
  have inner1 : ∀ q : String × ℚ,
      ((difficulty_dist.flatMap fun d => blooms_dist.map fun b =>
        (q, d, b)).map (exactCount total_questions)).sum =
        ((total_questions : ℚ) * q.2) *
          ((difficulty_dist.map Prod.snd).sum * (blooms_dist.map Prod.snd).sum) := by
    intro q
    rw [sum_map_flatMap]
    simp only [inner2]
    have hfn : (fun d : String × ℚ =>
        ((total_questions : ℚ) * q.2 * d.2) * (blooms_dist.map Prod.snd).sum) =
        fun d : String × ℚ =>
          ((total_questions : ℚ) * q.2 * (blooms_dist.map Prod.snd).sum) * d.2 := by
      funext d
      ring
    rw [hfn, sum_map_mul_left_q difficulty_dist Prod.snd _]
    ring
  simp only [inner1]
  have hfn : (fun q : String × ℚ =>
      ((total_questions : ℚ) * q.2) *
        ((difficulty_dist.map Prod.snd).sum * (blooms_dist.map Prod.snd).sum)) =
      fun q : String × ℚ =>
        ((total_questions : ℚ) * ((difficulty_dist.map Prod.snd).sum *
          (blooms_dist.map Prod.snd).sum)) * q.2 := by
    funext q
    ring
  rw [hfn, sum_map_mul_left_q question_type_dist Prod.snd _]
  ring

theorem pyInt_of_nonneg {x : ℚ} (h : 0 ≤ x) : pyInt x = ⌊x⌋ := by
  rw [pyInt, if_neg (not_lt.mpr h)]

theorem sum_lt_length_of_lt_one (l : List ℚ) (hne : l ≠ [])
    (h : ∀ x ∈ l, x < 1) : l.sum < (l.length : ℚ) := by
  induction l with
  | nil => simp at hne
  | cons a t ih =>
    rcases eq_or_ne t [] with rfl | ht
    · simpa using h a (by simp)
    · have ha := h a (by simp)
      have hs := ih ht fun x hx => h x (List.mem_cons_of_mem _ hx)
      simp only [List.sum_cons, List.length_cons]
      push_cast
      linarith

theorem exactCount_nonneg {total_questions : ℤ}
    {question_type_dist difficulty_dist blooms_dist : Dist}
    (hN : 0 ≤ total_questions)
    (hw1 : ∀ p ∈ question_type_dist, 0 ≤ p.2)
    (hw2 : ∀ p ∈ difficulty_dist, 0 ≤ p.2)
    (hw3 : ∀ p ∈ blooms_dist, 0 ≤ p.2) :
    ∀ t ∈ comboTriples question_type_dist difficulty_dist blooms_dist,
      0 ≤ exactCount total_questions t := by
  intro t ht
  obtain ⟨h1, h2, h3⟩ := mem_comboTriples.mp ht
  have hNq : (0:ℚ) ≤ (total_questions : ℚ) := by exact_mod_cast hN
  exact mul_nonneg (mul_nonneg (mul_nonneg hNq (hw1 _ h1)) (hw2 _ h2)) (hw3 _ h3)

theorem comboTriples_ne_nil {question_type_dist difficulty_dist blooms_dist : Dist}
    (hq : question_type_dist ≠ []) (hd : difficulty_dist ≠ [])
    (hb : blooms_dist ≠ []) :
    comboTriples question_type_dist difficulty_dist blooms_dist ≠ [] := by
  obtain ⟨q, hqm⟩ := List.exists_mem_of_ne_nil _ hq
  obtain ⟨d, hdm⟩ := List.exists_mem_of_ne_nil _ hd
  obtain ⟨b, hbm⟩ := List.exists_mem_of_ne_nil _ hb
  have hmem : (q, d, b) ∈ comboTriples question_type_dist difficulty_dist
      blooms_dist := mem_comboTriples.mpr ⟨hqm, hdm, hbm⟩
  exact List.ne_nil_of_mem hmem

theorem current_total_map_form (total_questions : ℤ)
    (combos : List ((String × ℚ) × (String × ℚ) × (String × ℚ))) :
    current_total (combos.map fun t => (comboKey t, mkCombo total_questions t)) =
      (combos.map fun t => pyInt (exactCount total_questions t)).sum := by
  rw [current_total, List.map_map]
  rfl

/-- Under the valid-input hypotheses the remainder is exactly the sum of
the fractional parts of the exact shares. -/
theorem remainder_cast_eq_sum_fract (total_questions : ℤ)
    (question_type_dist difficulty_dist blooms_dist : Dist)
    (hkeys : ((comboTriples question_type_dist difficulty_dist blooms_dist).map
      comboKey).Nodup)
    (hw1 : ∀ p ∈ question_type_dist, 0 ≤ p.2)
    (hw2 : ∀ p ∈ difficulty_dist, 0 ≤ p.2)
    (hw3 : ∀ p ∈ blooms_dist, 0 ≤ p.2)
    (hs1 : (question_type_dist.map Prod.snd).sum = 1)
    (hs2 : (difficulty_dist.map Prod.snd).sum = 1)
    (hs3 : (blooms_dist.map Prod.snd).sum = 1)
    (hN : 0 ≤ total_questions) :
    ((remainder total_questions (fractional_distribution total_questions
        question_type_dist difficulty_dist blooms_dist) : ℤ) : ℚ) =
      ((comboTriples question_type_dist difficulty_dist blooms_dist).map
        fun t => Int.fract (exactCount total_questions t)).sum := by
  have hM := fractional_distribution_eq total_questions question_type_dist
    difficulty_dist blooms_dist hkeys
  have hnn := exactCount_nonneg hN hw1 hw2 hw3
  have hpy : (comboTriples question_type_dist difficulty_dist blooms_dist).map
      (fun t => pyInt (exactCount total_questions t)) =
      (comboTriples question_type_dist difficulty_dist blooms_dist).map
        (fun t => ⌊exactCount total_questions t⌋) :=
    List.map_congr_left fun t ht => pyInt_of_nonneg (hnn t ht)
  have hsumexact : ((comboTriples question_type_dist difficulty_dist
      blooms_dist).map (exactCount total_questions)).sum = (total_questions : ℚ) := by
    rw [sum_exactCount, hs1, hs2, hs3]
    ring
  have hfr : ((comboTriples question_type_dist difficulty_dist blooms_dist).map
      fun t => Int.fract (exactCount total_questions t)) =
      (comboTriples question_type_dist difficulty_dist blooms_dist).map
        fun t => exactCount total_questions t -
          ((⌊exactCount total_questions t⌋ : ℤ) : ℚ) :=
    List.map_congr_left fun t _ => rfl
  rw [hfr, sum_map_sub_q, hsumexact]
  rw [remainder, hM, current_total_map_form, hpy]
  push_cast
  rw [List.map_map]
  rfl

/-- Bounds on the remainder: non-negative and strictly below the number
of combinations. -/
theorem remainder_bounds (total_questions : ℤ)
    (question_type_dist difficulty_dist blooms_dist : Dist)
    (hkeys : ((comboTriples question_type_dist difficulty_dist blooms_dist).map
      comboKey).Nodup)
    (hq : question_type_dist ≠ []) (hd : difficulty_dist ≠ [])
    (hb : blooms_dist ≠ [])
    (hw1 : ∀ p ∈ question_type_dist, 0 ≤ p.2)
    (hw2 : ∀ p ∈ difficulty_dist, 0 ≤ p.2)
    (hw3 : ∀ p ∈ blooms_dist, 0 ≤ p.2)
    (hs1 : (question_type_dist.map Prod.snd).sum = 1)
    (hs2 : (difficulty_dist.map Prod.snd).sum = 1)
    (hs3 : (blooms_dist.map Prod.snd).sum = 1)
    (hN : 0 ≤ total_questions) :
    0 ≤ remainder total_questions (fractional_distribution total_questions
      question_type_dist difficulty_dist blooms_dist) ∧
    remainder total_questions (fractional_distribution total_questions
      question_type_dist difficulty_dist blooms_dist) <
      ((fractional_distribution total_questions question_type_dist
        difficulty_dist blooms_dist).length : ℤ) := by
  have hcast := remainder_cast_eq_sum_fract total_questions question_type_dist
    difficulty_dist blooms_dist hkeys hw1 hw2 hw3 hs1 hs2 hs3 hN
  have hM := fractional_distribution_eq total_questions question_type_dist
    difficulty_dist blooms_dist hkeys
  have hlen : (fractional_distribution total_questions question_type_dist
      difficulty_dist blooms_dist).length =
      (comboTriples question_type_dist difficulty_dist blooms_dist).length := by
    rw [hM, List.length_map]
  constructor
  · have h0 : (0:ℚ) ≤ ((remainder total_questions (fractional_distribution
        total_questions question_type_dist difficulty_dist blooms_dist) : ℤ) : ℚ) := by
      rw [hcast]
      apply List.sum_nonneg
      intro x hx
      obtain ⟨t, -, rfl⟩ := List.mem_map.mp hx
      exact Int.fract_nonneg _
    exact_mod_cast h0
  · have hne := comboTriples_ne_nil hq hd hb
    have h1 : ((remainder total_questions (fractional_distribution
        total_questions question_type_dist difficulty_dist blooms_dist) : ℤ) : ℚ) <
        (((comboTriples question_type_dist difficulty_dist blooms_dist).map
          fun t => Int.fract (exactCount total_questions t)).length : ℚ) := by
      rw [hcast]
      apply sum_lt_length_of_lt_one
      · simpa using hne
      · intro x hx
        obtain ⟨t, -, rfl⟩ := List.mem_map.mp hx
        exact Int.fract_lt_one _
    rw [List.length_map] at h1
    rw [hlen]
    exact_mod_cast h1

theorem map_fst_dictModify (m : List (String × α)) (k : String) (f : α → α) :
    (dictModify m k f).map Prod.fst = m.map Prod.fst := by
  rw [dictModify, List.map_map]
  apply List.map_congr_left
  intro p _
  by_cases h : p.1 = k <;> simp [h, Function.comp]

theorem current_total_dictModify_bump (m : List (String × Combo)) (k : String)
    (hnd : keysNodup m) (hmem : k ∈ m.map Prod.fst) :
    current_total (dictModify m k fun c => { c with count := c.count + 1 }) =
      current_total m + 1 := by
  induction m with
  | nil => simp at hmem
  | cons p m ih =>
    rw [keysNodup, List.map_cons, List.nodup_cons] at hnd
    obtain ⟨hp_notin, hnd'⟩ := hnd
    by_cases hk : p.1 = k
    · have hmnot : ∀ q ∈ m, ¬(q.1 = k) := by
        intro q hq hqk
        exact hp_notin (by rw [hk, ← hqk]; exact List.mem_map_of_mem Prod.fst hq)
      have htail : m.map (fun p => if p.1 = k then
          (p.1, { p.2 with count := p.2.count + 1 }) else p) = m := by
        calc m.map (fun p => if p.1 = k then
            (p.1, { p.2 with count := p.2.count + 1 }) else p)
            = m.map fun p => p :=
              List.map_congr_left fun q hq => if_neg (hmnot q hq)
          _ = m := by simp
      simp only [dictModify, List.map_cons, current_total, List.sum_cons, hk,
        eq_self_iff_true, if_true]
      rw [htail]
      ring
    · have hmem' : k ∈ m.map Prod.fst := by
        rw [List.map_cons, List.mem_cons] at hmem
        rcases hmem with h | h
        · exact absurd h.symm hk
        · exact h
      have ihres := ih hnd' hmem'
      simp only [dictModify, List.map_cons, current_total, List.sum_cons, hk,
        if_false] at ihres ⊢
      omega

theorem current_total_distributeRemainder :
    ∀ (ks : List String) (m : List (String × Combo)), keysNodup m →
      (∀ k ∈ ks, k ∈ m.map Prod.fst) →
      current_total (distributeRemainder m ks) =
        current_total m + ks.length := by
  intro ks
  induction ks with
  | nil =>
    intro m _ _
    simp [distributeRemainder]
  | cons k ks ih =>
    intro m hnd hks
    have hstep : distributeRemainder m (k :: ks) =
        distributeRemainder (dictModify m k fun c =>
          { c with count := c.count + 1 }) ks := rfl
    have h1 : keysNodup (dictModify m k fun c => { c with count := c.count + 1 }) := by
      rw [keysNodup, map_fst_dictModify]
      exact hnd
    have h2 : ∀ k' ∈ ks, k' ∈ (dictModify m k fun c =>
        { c with count := c.count + 1 }).map Prod.fst := by
      rw [map_fst_dictModify]
      exact fun k' hk' => hks k' (List.mem_cons_of_mem _ hk')
    rw [hstep, ih _ h1 h2,
      current_total_dictModify_bump m k hnd (hks k (List.mem_cons_self _ _))]
    simp only [List.length_cons]
    push_cast
    ring

theorem counts_nonneg_distributeRemainder :
    ∀ (ks : List String) (m : List (String × Combo)),
      (∀ p ∈ m, 0 ≤ p.2.count) →
      ∀ p ∈ distributeRemainder m ks, 0 ≤ p.2.count := by
  intro ks
  induction ks with
  | nil =>
    intro m h
    simpa [distributeRemainder] using h
  | cons k ks ih =>
    intro m h
    have hstep : distributeRemainder m (k :: ks) =
        distributeRemainder (dictModify m k fun c =>
          { c with count := c.count + 1 }) ks := rfl
    have h' : ∀ p ∈ dictModify m k (fun c => { c with count := c.count + 1 }),
        0 ≤ p.2.count := by
      intro p hp
      obtain ⟨q, hq, rfl⟩ := List.mem_map.mp hp
      have hq0 := h q hq
      by_cases hqk : q.1 = k
      · rw [if_pos hqk]
        simp only []
        omega
      · rw [if_neg hqk]
        exact hq0
    rw [hstep]
    exact ih _ h'

theorem sum_filter_pos_eq (m : List (String × Combo))
    (h : ∀ p ∈ m, 0 ≤ p.2.count) :
    ((m.filter fun p => 0 < p.2.count).map fun p => p.2.count).sum =
      current_total m := by
  induction m with
  | nil => simp [current_total]
  | cons p m ih =>
    have hp := h p (List.mem_cons_self _ _)
    have ih' := ih fun q hq => h q (List.mem_cons_of_mem _ hq)
    by_cases hc : 0 < p.2.count
    · simp [List.filter_cons, hc, current_total, List.sum_cons] at ih' ⊢
      omega
    · have hz : p.2.count = 0 := le_antisymm (not_lt.mp hc) hp
      simp [List.filter_cons, hc, current_total, List.sum_cons] at ih' ⊢
      omega

/-- Master theorem: with distinct combination keys, non-empty
distributions of non-negative weights each summing to 1, and a
non-negative total, the allocator's counts sum exactly to the total. -/
theorem total_count_calculate_eq (total_questions : ℤ)
    (question_type_dist difficulty_dist blooms_dist : Dist)
    (hkeys : ((comboTriples question_type_dist difficulty_dist blooms_dist).map
      comboKey).Nodup)
    (hq : question_type_dist ≠ []) (hd : difficulty_dist ≠ [])
    (hb : blooms_dist ≠ [])
    (hw1 : ∀ p ∈ question_type_dist, 0 ≤ p.2)
    (hw2 : ∀ p ∈ difficulty_dist, 0 ≤ p.2)
    (hw3 : ∀ p ∈ blooms_dist, 0 ≤ p.2)
    (hs1 : (question_type_dist.map Prod.snd).sum = 1)
    (hs2 : (difficulty_dist.map Prod.snd).sum = 1)
    (hs3 : (blooms_dist.map Prod.snd).sum = 1)
    (hN : 0 ≤ total_questions) :
    total_count (calculate_question_distribution total_questions
      question_type_dist difficulty_dist blooms_dist) = total_questions := by
  have hM := fractional_distribution_eq total_questions question_type_dist
    difficulty_dist blooms_dist hkeys
  have hnd : keysNodup (fractional_distribution total_questions
      question_type_dist difficulty_dist blooms_dist) := by
    rw [keysNodup, hM, List.map_map]
    exact hkeys
  obtain ⟨hr0, hrlt⟩ := remainder_bounds total_questions question_type_dist
    difficulty_dist blooms_dist hkeys hq hd hb hw1 hw2 hw3 hs1 hs2 hs3 hN
  have hsortlen : (sorted_keys (fractional_distribution total_questions
      question_type_dist difficulty_dist blooms_dist)).length =
      (fractional_distribution total_questions question_type_dist
        difficulty_dist blooms_dist).length := by
    rw [sorted_keys,
      (List.perm_insertionSort _ _).length_eq, dictKeys, List.length_map]
  have htake_len : ((sorted_keys (fractional_distribution total_questions
      question_type_dist difficulty_dist blooms_dist)).take
        (remainder total_questions (fractional_distribution total_questions
          question_type_dist difficulty_dist blooms_dist)).toNat).length =
      (remainder total_questions (fractional_distribution total_questions
        question_type_dist difficulty_dist blooms_dist)).toNat := by
    rw [List.length_take, hsortlen]
    omega
  have htake_mem : ∀ k ∈ (sorted_keys (fractional_distribution total_questions
      question_type_dist difficulty_dist blooms_dist)).take
        (remainder total_questions (fractional_distribution total_questions
          question_type_dist difficulty_dist blooms_dist)).toNat,
      k ∈ (fractional_distribution total_questions question_type_dist
        difficulty_dist blooms_dist).map Prod.fst := by
    intro k hk
    have hk2 := List.take_subset _ _ hk
    rw [sorted_keys] at hk2
    rw [List.mem_insertionSort] at hk2
    exact hk2
  have hcounts0 : ∀ p ∈ fractional_distribution total_questions
      question_type_dist difficulty_dist blooms_dist, 0 ≤ p.2.count := by
    rw [hM]
    intro p hp
    obtain ⟨t, ht, rfl⟩ := List.mem_map.mp hp
    have := exactCount_nonneg hN hw1 hw2 hw3 t ht
    simp only [mkCombo]
    rw [pyInt_of_nonneg this]
    exact Int.floor_nonneg.mpr this
  have hsum2 := current_total_distributeRemainder
    ((sorted_keys (fractional_distribution total_questions question_type_dist
      difficulty_dist blooms_dist)).take
        (remainder total_questions (fractional_distribution total_questions
          question_type_dist difficulty_dist blooms_dist)).toNat)
    (fractional_distribution total_questions question_type_dist
      difficulty_dist blooms_dist) hnd htake_mem
  have hcounts2 := counts_nonneg_distributeRemainder
    ((sorted_keys (fractional_distribution total_questions question_type_dist
      difficulty_dist blooms_dist)).take
        (remainder total_questions (fractional_distribution total_questions
          question_type_dist difficulty_dist blooms_dist)).toNat)
    (fractional_distribution total_questions question_type_dist
      difficulty_dist blooms_dist) hcounts0
  have hfinal : total_count (calculate_question_distribution total_questions
      question_type_dist difficulty_dist blooms_dist) =
      current_total (distributeRemainder
        (fractional_distribution total_questions question_type_dist
          difficulty_dist blooms_dist)
        ((sorted_keys (fractional_distribution total_questions
          question_type_dist difficulty_dist blooms_dist)).take
            (remainder total_questions (fractional_distribution total_questions
              question_type_dist difficulty_dist blooms_dist)).toNat)) := by
    rw [calculate_question_distribution, total_count, List.map_map,
      ← sum_filter_pos_eq _ hcounts2]
    rfl
  rw [hfinal, hsum2, htake_len]
  rw [remainder] at hr0 ⊢
  omega

theorem sum_snd_add_inplace (m : Dist) (k : String) (v : ℚ)
    (hnd : keysNodup m) (hmem : k ∈ m.map Prod.fst) :
    ((m.map fun p => if p.1 = k then (p.1, p.2 + v) else p).map Prod.snd).sum =
      (m.map Prod.snd).sum + v := by
  induction m with
  | nil => simp at hmem
  | cons p m ih =>
    rw [keysNodup, List.map_cons, List.nodup_cons] at hnd
    obtain ⟨hp_notin, hnd'⟩ := hnd
    by_cases hk : p.1 = k
    · have hmnot : ∀ q ∈ m, ¬(q.1 = k) := by
        intro q hq hqk
        exact hp_notin (by rw [hk, ← hqk]; exact List.mem_map_of_mem Prod.fst hq)
      have htail : m.map (fun p => if p.1 = k then (p.1, p.2 + v) else p) = m := by
        calc m.map (fun p => if p.1 = k then (p.1, p.2 + v) else p)
            = m.map fun p => p :=
              List.map_congr_left fun q hq => if_neg (hmnot q hq)
          _ = m := by simp
      simp only [List.map_cons, List.sum_cons, hk, eq_self_iff_true, if_true]
      rw [htail]
      ring
    · have hmem' : k ∈ m.map Prod.fst := by
        rw [List.map_cons, List.mem_cons] at hmem
        rcases hmem with h | h
        · exact absurd h.symm hk
        · exact h
      have ihres := ih hnd' hmem'
      simp only [List.map_cons, List.sum_cons, hk, if_false] at ihres ⊢
      linarith

theorem map_fst_addAt_of_mem (m : Dist) (k : String) (v : ℚ)
    (hm : dictMem m k = true) :
    (addAt m k v).map Prod.fst = m.map Prod.fst := by
  rw [addAt, if_pos hm, List.map_map]
  apply List.map_congr_left
  intro p _
  by_cases h : p.1 = k <;> simp [h, Function.comp]

theorem keysNodup_addAt (m : Dist) (k : String) (v : ℚ) (h : keysNodup m) :
    keysNodup (addAt m k v) := by
  by_cases hm : dictMem m k
  · rw [keysNodup, map_fst_addAt_of_mem m k v hm]
    exact h
  · rw [keysNodup, addAt, if_neg hm, List.map_append]
    have hnotin : k ∉ m.map Prod.fst := by
      rw [← dictMem_iff_mem_keys]
      simp [hm]
    refine List.nodup_append.mpr ⟨h, List.nodup_singleton _, ?_⟩
    intro a ha hb
    simp only [List.map_cons, List.map_nil, List.mem_singleton] at hb
    rw [hb] at ha
    exact hnotin ha

theorem sum_snd_addAt (m : Dist) (k : String) (v : ℚ) (h : keysNodup m) :
    ((addAt m k v).map Prod.snd).sum = (m.map Prod.snd).sum + v := by
  by_cases hm : dictMem m k
  · rw [addAt, if_pos hm]
    exact sum_snd_add_inplace m k v h ((dictMem_iff_mem_keys m k).mp hm)
  · rw [addAt, if_neg hm]
    simp

theorem nonneg_addAt (m : Dist) (k : String) (v : ℚ)
    (hm : ∀ p ∈ m, 0 ≤ p.2) (hv : 0 ≤ v) :
    ∀ p ∈ addAt m k v, 0 ≤ p.2 := by
  intro p hp
  rw [addAt] at hp
  by_cases hmem : dictMem m k
  · rw [if_pos hmem] at hp
    obtain ⟨q, hq, rfl⟩ := List.mem_map.mp hp
    by_cases hqk : q.1 = k
    · rw [if_pos hqk]
      have := hm q hq
      simp only []
      linarith
    · rw [if_neg hqk]
      exact hm q hq
  · rw [if_neg hmem] at hp
    rcases List.mem_append.mp hp with h | h
    · exact hm p h
    · simp only [List.mem_singleton] at h
      rw [h]
      exact hv

theorem addAt_ne_nil (m : Dist) (k : String) (v : ℚ) : addAt m k v ≠ [] := by
  rw [addAt]
  by_cases hm : dictMem m k
  · rw [if_pos hm]
    have hmne : m ≠ [] := by
      intro heq
      rw [heq] at hm
      simp [dictMem] at hm
    simpa [List.map_eq_nil_iff] using hmne
  · rw [if_neg hm]
    simp

theorem sub_dist_foldl_sum (sel : FinalCombo → String) (val : FinalCombo → ℚ) :
    ∀ (g : List FinalCombo) (m0 : Dist), keysNodup m0 →
      ((((g.foldl (fun dd c => addAt dd (sel c) (val c)) m0)).map Prod.snd).sum =
        (m0.map Prod.snd).sum + (g.map val).sum) ∧
      keysNodup (g.foldl (fun dd c => addAt dd (sel c) (val c)) m0) := by
  intro g
  induction g with
  | nil =>
    intro m0 h
    simpa using h
  | cons c g ih =>
    intro m0 h
    have hstep : (c :: g).foldl (fun dd c => addAt dd (sel c) (val c)) m0 =
        g.foldl (fun dd c => addAt dd (sel c) (val c))
          (addAt m0 (sel c) (val c)) := rfl
    have hnd1 := keysNodup_addAt m0 (sel c) (val c) h
    obtain ⟨hsum, hnd2⟩ := ih (addAt m0 (sel c) (val c)) hnd1
    refine ⟨?_, by rw [hstep]; exact hnd2⟩
    rw [hstep, hsum, sum_snd_addAt m0 (sel c) (val c) h]
    simp only [List.map_cons, List.sum_cons]
    ring

theorem sub_dist_foldl_nonneg (sel : FinalCombo → String) (val : FinalCombo → ℚ) :
    ∀ (g : List FinalCombo) (m0 : Dist), (∀ p ∈ m0, 0 ≤ p.2) →
      (∀ c ∈ g, 0 ≤ val c) →
      ∀ p ∈ g.foldl (fun dd c => addAt dd (sel c) (val c)) m0, 0 ≤ p.2 := by
  intro g
  induction g with
  | nil =>
    intro m0 h _
    simpa using h
  | cons c g ih =>
    intro m0 h hval
    have h1 := nonneg_addAt m0 (sel c) (val c) h (hval c (List.mem_cons_self _ _))
    exact ih (addAt m0 (sel c) (val c)) h1
      fun c' hc' => hval c' (List.mem_cons_of_mem _ hc')

theorem sub_dist_foldl_ne_nil (sel : FinalCombo → String) (val : FinalCombo → ℚ) :
    ∀ (g : List FinalCombo) (m0 : Dist), m0 ≠ [] →
      g.foldl (fun dd c => addAt dd (sel c) (val c)) m0 ≠ [] := by
  intro g
  induction g with
  | nil =>
    intro m0 h
    simpa using h
  | cons c g ih =>
    intro m0 _
    exact ih (addAt m0 (sel c) (val c)) (addAt_ne_nil m0 (sel c) (val c))

/-- The result-processing loop stops at the first truthy error, carrying
that worker's kind and message. -/
theorem process_results_err (results : List WorkerRes)
    (h : results.any (fun r => errTruthy r.error) = true) :
    ∀ files data, ∃ r f d,
      results.find? (fun x => errTruthy x.error) = some r ∧
      process_results results files data =
        .err f d ("Error in " ++ r.question_type ++ ": " ++ r.error.getD "") := by
  induction results with
  | nil => simp at h
  | cons r rest ih =>
    intro files data
    by_cases hr : errTruthy r.error = true
    · exact ⟨r, files, data, by simp [List.find?_cons, hr], by simp [process_results, hr]⟩
    · have hrest : rest.any (fun x => errTruthy x.error) = true := by
        simpa [List.any_cons, hr] using h
      obtain ⟨r', f', d', hfind, heq⟩ := ih hrest (files ++ [r.file_name])
        (dictInsert data r.question_type r.question_data)
      refine ⟨r', f', d', ?_, ?_⟩
      · simp [List.find?_cons, hr, hfind]
      · simp [process_results, hr, heq]

/-- If no worker reports a truthy error, the loop completes normally. -/
theorem process_results_ok (results : List WorkerRes)
    (h : results.any (fun r => errTruthy r.error) = false) :
    ∀ files data, ∃ f d, process_results results files data = .ok f d := by
  induction results with
  | nil => exact fun files data => ⟨files, data, rfl⟩
  | cons r rest ih =>
    intro files data
    rw [List.any_cons, Bool.or_eq_false_iff] at h
    obtain ⟨hr, hrest⟩ := h
    obtain ⟨f, d, heq⟩ := ih hrest (files ++ [r.file_name])
      (dictInsert data r.question_type r.question_data)
    exact ⟨f, d, by simp [process_results, hr, heq]⟩

/-- The overall status is `error` exactly when some worker reported a
truthy error. -/
theorem handle_results_status (results : List WorkerRes) :
    (handle_results results).status =
      if results.any (fun r => errTruthy r.error) then "error" else "success" := by
  by_cases h : results.any (fun r => errTruthy r.error) = true
  · obtain ⟨r, f, d, _, heq⟩ := process_results_err results h [] []
    simp [handle_results, heq, h]
  · have h' : results.any (fun r => errTruthy r.error) = false := by
      revert h; cases results.any (fun r => errTruthy r.error) <;> simp
    obtain ⟨f, d, heq⟩ := process_results_ok results h' [] []
    simp [handle_results, heq, h']

/-! ### Claim C10 -/

/-- C10: `generate_content_summary_sync` is total and returns, for every
retrieval outcome: the chapter-tagged error string beginning
`Error retrieving content for chapter` when retrieval raises; the fixed
no-content message when nothing (or an empty string) is retrieved; and
otherwise the first `min 2000 |content|` characters, i.e. at most 2000
characters, with the truncation marker appended exactly when the content
exceeds 2000 characters. -/
theorem C10_summary_sync_total (chapter_id : List Char)
    (retrieval : Except (List Char) (Option (List Char))) :
    (∀ e, retrieval = .error e →
      generate_content_summary_sync chapter_id retrieval =
        errHead ++ chapter_id ++ ": ".data ++ e) ∧
    (retrieval = .ok none →
      generate_content_summary_sync chapter_id retrieval = noContentMsg) ∧
    (∀ s, retrieval = .ok (some s) → s.length ≤ 2000 →
      generate_content_summary_sync chapter_id retrieval =
        if s = [] then noContentMsg else s) ∧
    (∀ s, retrieval = .ok (some s) → 2000 < s.length →
      generate_content_summary_sync chapter_id retrieval =
        s.take 2000 ++ truncationMarker ∧ (s.take 2000).length = 2000) := by
  refine ⟨?_, ?_, ?_, ?_⟩
  · rintro e rfl; rfl
  · rintro rfl; rfl
  · rintro s rfl hle
    by_cases hs : s = []
    · simp [generate_content_summary_sync, hs]
    · have hmin : min 2000 s.length = s.length := by omega
      simp [generate_content_summary_sync, hs, hmin]
  · rintro s rfl hgt
    have hs : s ≠ [] := by
      intro h
      rw [h] at hgt
      simp at hgt
    have hmin : min 2000 s.length = 2000 := by omega
    refine ⟨?_, ?_⟩
    · simp [generate_content_summary_sync, hs, hmin, hgt]
    · rw [List.length_take]
      omega

/-- C10 witness: the error branch at a concrete input. -/
theorem C10_summary_sync_total_witness :
    generate_content_summary_sync "c".data (Except.error "boom".data) =
      errHead ++ "c".data ++ ": ".data ++ "boom".data :=
  (C10_summary_sync_total "c".data (Except.error "boom".data)).1 "boom".data rfl

/-! ### Claim C9 -/

/-- C9: in the orchestrator pipeline the shared context provider is
invoked exactly once, that single invocation happens before every worker
submission, and all submitted workers receive the provider's one
result as their `content_summary`. -/
theorem C9_shared_summary_once (total_questions : ℤ)
    (question_type_dist difficulty_dist blooms_dist : Dist)
    (chapter_id : List Char)
    (retrieval : Except (List Char) (Option (List Char)))
    (runWorker : WorkerCall → WorkerRes) :
    (generate_questions_model total_questions question_type_dist
        difficulty_dist blooms_dist chapter_id retrieval runWorker).trace.count
      TraceEv.fetch = 1 ∧
    (∃ rest,
      (generate_questions_model total_questions question_type_dist
          difficulty_dist blooms_dist chapter_id retrieval runWorker).trace =
        TraceEv.fetch :: rest ∧ ∀ ev ∈ rest, ev ≠ TraceEv.fetch) ∧
    (∀ c ∈ (generate_questions_model total_questions question_type_dist
        difficulty_dist blooms_dist chapter_id retrieval runWorker).spawned,
      c.content_summary = generate_content_summary_sync chapter_id retrieval) := by
  have htrace : (generate_questions_model total_questions question_type_dist
      difficulty_dist blooms_dist chapter_id retrieval runWorker).trace =
    TraceEv.fetch ::
      ((generate_questions_model total_questions question_type_dist
          difficulty_dist blooms_dist chapter_id retrieval runWorker).spawned.map
        fun c => TraceEv.submit c.question_type) := rfl
  have hzero : (((generate_questions_model total_questions question_type_dist
      difficulty_dist blooms_dist chapter_id retrieval runWorker).spawned.map
        fun c => TraceEv.submit c.question_type).count TraceEv.fetch) = 0 := by
    rw [List.count_eq_zero]
    intro hmem
    obtain ⟨c, -, hc⟩ := List.mem_map.mp hmem
    exact TraceEv.noConfusion hc
  refine ⟨?_, ⟨_, htrace, ?_⟩, ?_⟩
  · rw [htrace, List.count_cons, hzero]
    rfl
  · intro ev hev
    obtain ⟨c, -, rfl⟩ := List.mem_map.mp hev
    intro hc
    exact TraceEv.noConfusion hc
  · intro c hc
    simp only [generate_questions_model] at hc
    obtain ⟨g, -, rfl⟩ := List.mem_map.mp hc
    rfl

/-- C9 witness: the conjuncts at a concrete request. -/
theorem C9_shared_summary_once_witness :
    (generate_questions_model 1 [("mcq", 1)] [("basic", 1)] [("apply", 1)]
        "c".data (Except.ok (some "text".data))
        (fun c => { question_type := c.question_type, file_name := some "f",
                    question_data := some [], error := none })).trace.count
      TraceEv.fetch = 1 :=
  (C9_shared_summary_once 1 [("mcq", 1)] [("basic", 1)] [("apply", 1)]
    "c".data (Except.ok (some "text".data))
    (fun c => { question_type := c.question_type, file_name := some "f",
                question_data := some [], error := none })).1

/-! ### Claim C8 -/

/-- C8 counterexample: two requests that differ only in the difficulty
distribution (weights 0.301 vs 0.309) produce the identical artifact
name, because the serialization truncates `prop*100` to an integer; so
changing one of the five declared inputs need not change the name. -/
theorem C8_counterexample :
    ([("basic", (301:ℚ)/1000)] : Dist) ≠ [("basic", (309:ℚ)/1000)] ∧
    app_file_name "fib" "ch" [("basic", (301:ℚ)/1000)] [("remember", 1)] none =
      app_file_name "fib" "ch" [("basic", (309:ℚ)/1000)] [("remember", 1)] none := by
  constructor
  · intro h
    have : ((301:ℚ)/1000) = (309:ℚ)/1000 := congrArg (fun l => (l.headI).2) h
    norm_num at this
  · have h1 : pyInt ((301:ℚ)/1000 * 100) = 30 := by norm_num [pyInt]
    have h2 : pyInt ((309:ℚ)/1000 * 100) = 30 := by norm_num [pyInt]
    have h3 : pyInt ((1:ℚ) * 100) = 100 := by norm_num [pyInt]
    simp [app_file_name, distSerialization, h1, h2, h3]

/-- C8 amended: the artifact name is a deterministic pure function of
`(contentLocator, difficultyDistribution, levelDistribution,
objectiveFilter, kind)` — in particular the orchestrator's recomputation
of the name agrees exactly with the fib generator's own computation —
but it is not injective in those inputs: distinct difficulty
distributions can serialize to the same name (see the
counterexample). -/
theorem C8_amended_name_deterministic (chapter_id : String)
    (difficulty_distribution blooms_distribution : Dist)
    (learning_objectives : Objectives) :
    app_file_name "fib" chapter_id difficulty_distribution blooms_distribution
        learning_objectives =
      fib_file_name chapter_id difficulty_distribution blooms_distribution
        learning_objectives := by
  simp [app_file_name, fib_file_name, kindSuffix]

/-! ### Claim C1 -/

/-- C1 counterexample: the distributions are all non-empty with positive
weight sums (so "valid" in the claim's sense), yet with N = 10 and a
kind distribution summing to 1/2 the allocator returns counts summing
to 6, not 10: the floor pass loses mass that the remainder loop, capped
at one increment per combination, cannot restore because the weights are
used unnormalized. -/
theorem C1_counterexample :
    (0:ℚ) < ([("a", (1:ℚ)/2)].map Prod.snd).sum ∧
    total_count (calculate_question_distribution 10 [("a", (1:ℚ)/2)]
      [("b", 1)] [("c", 1)]) = 6 ∧
    total_count (calculate_question_distribution 10 [("a", (1:ℚ)/2)]
      [("b", 1)] [("c", 1)]) ≠ 10 := by
  have heval : total_count (calculate_question_distribution 10 [("a", (1:ℚ)/2)]
      [("b", 1)] [("c", 1)]) = 6 := by
    norm_num [calculate_question_distribution, fractional_distribution,
      comboTriples, dictInsert, dictMem, mkCombo, exactCount, pyInt, comboKey,
      remainder, current_total, sorted_keys, dictKeys, fracPart, dictGet,
      dictModify, distributeRemainder, total_count, List.insertionSort,
      List.orderedInsert]
    decide
  refine ⟨by norm_num, heval, ?_⟩
  rw [heval]
  decide

/-- C1 amended: the postcondition holds once each distribution's weights
actually sum to 1 (with non-negative weights, non-empty axes, distinct
combination keys and N ≥ 0): the allocator's returned counts then sum
exactly to N. -/
theorem C1_amended_sum_eq_total (total_questions : ℤ)
    (question_type_dist difficulty_dist blooms_dist : Dist)
    (hkeys : ((comboTriples question_type_dist difficulty_dist blooms_dist).map
      comboKey).Nodup)
    (hq : question_type_dist ≠ []) (hd : difficulty_dist ≠ [])
    (hb : blooms_dist ≠ [])
    (hw1 : ∀ p ∈ question_type_dist, 0 ≤ p.2)
    (hw2 : ∀ p ∈ difficulty_dist, 0 ≤ p.2)
    (hw3 : ∀ p ∈ blooms_dist, 0 ≤ p.2)
    (hs1 : (question_type_dist.map Prod.snd).sum = 1)
    (hs2 : (difficulty_dist.map Prod.snd).sum = 1)
    (hs3 : (blooms_dist.map Prod.snd).sum = 1)
    (hN : 0 ≤ total_questions) :
    total_count (calculate_question_distribution total_questions
      question_type_dist difficulty_dist blooms_dist) = total_questions :=
  total_count_calculate_eq total_questions question_type_dist difficulty_dist
    blooms_dist hkeys hq hd hb hw1 hw2 hw3 hs1 hs2 hs3 hN

/-- C1 witness: the amended theorem at a concrete request. -/
theorem C1_amended_sum_eq_total_witness :
    total_count (calculate_question_distribution 5 [("mcq", 1)] [("basic", 1)]
      [("remember", 1)]) = 5 :=
  C1_amended_sum_eq_total 5 [("mcq", 1)] [("basic", 1)] [("remember", 1)]
    (by decide) (by simp) (by simp) (by simp)
    (by simp) (by simp) (by simp)
    (by simp) (by simp) (by simp) (by decide)

/-! ### Claim C7 -/

/-- C7 counterexample: with valid distributions in the claim's sense
(non-empty, positive weight sum) but weights summing to 1/2, the
remainder is 5 while there is only 1 combination, violating
`remainder < number of combinations`. -/
theorem C7_counterexample :
    remainder 10 (fractional_distribution 10 [("a", (1:ℚ)/2)]
      [("b", 1)] [("c", 1)]) = 5 ∧
    (fractional_distribution 10 [("a", (1:ℚ)/2)] [("b", 1)] [("c", 1)]).length
      = 1 ∧
    ¬(remainder 10 (fractional_distribution 10 [("a", (1:ℚ)/2)]
        [("b", 1)] [("c", 1)]) <
      ((fractional_distribution 10 [("a", (1:ℚ)/2)] [("b", 1)]
        [("c", 1)]).length : ℤ)) := by
  have h1 : fractional_distribution 10 [("a", (1:ℚ)/2)] [("b", 1)] [("c", 1)] =
      [("a_b_c", { question_type := "a", difficulty := "b", blooms_level := "c",
                   exact_count := 5, count := 5 })] := by
    simp only [fractional_distribution, comboTriples, dictInsert, dictMem,
      mkCombo, exactCount, pyInt, comboKey,
      List.flatMap_cons, List.flatMap_nil, List.map_cons, List.map_nil,
      List.foldl_cons, List.foldl_nil, List.append_nil, List.nil_append,
      List.any_cons, List.any_nil]
    simp
    norm_num
  rw [h1]
  refine ⟨?_, rfl, ?_⟩
  · rw [remainder, current_total]
    norm_num
  · rw [remainder, current_total]
    norm_num

/-- C7 amended: with weights summing to 1 (non-negative, non-empty axes,
distinct keys, N ≥ 0) the remainder after flooring is a non-negative
integer strictly below the number of combinations. -/
theorem C7_amended_remainder_bounds (total_questions : ℤ)
    (question_type_dist difficulty_dist blooms_dist : Dist)
    (hkeys : ((comboTriples question_type_dist difficulty_dist blooms_dist).map
      comboKey).Nodup)
    (hq : question_type_dist ≠ []) (hd : difficulty_dist ≠ [])
    (hb : blooms_dist ≠ [])
    (hw1 : ∀ p ∈ question_type_dist, 0 ≤ p.2)
    (hw2 : ∀ p ∈ difficulty_dist, 0 ≤ p.2)
    (hw3 : ∀ p ∈ blooms_dist, 0 ≤ p.2)
    (hs1 : (question_type_dist.map Prod.snd).sum = 1)
    (hs2 : (difficulty_dist.map Prod.snd).sum = 1)
    (hs3 : (blooms_dist.map Prod.snd).sum = 1)
    (hN : 0 ≤ total_questions) :
    0 ≤ remainder total_questions (fractional_distribution total_questions
      question_type_dist difficulty_dist blooms_dist) ∧
    remainder total_questions (fractional_distribution total_questions
      question_type_dist difficulty_dist blooms_dist) <
      ((fractional_distribution total_questions question_type_dist
        difficulty_dist blooms_dist).length : ℤ) :=
  remainder_bounds total_questions question_type_dist difficulty_dist
    blooms_dist hkeys hq hd hb hw1 hw2 hw3 hs1 hs2 hs3 hN

/-- C7 witness: the amended bounds at a concrete request. -/
theorem C7_amended_remainder_bounds_witness :
    0 ≤ remainder 5 (fractional_distribution 5 [("mcq", 1)] [("basic", 1)]
      [("remember", 1)]) ∧
    remainder 5 (fractional_distribution 5 [("mcq", 1)] [("basic", 1)]
      [("remember", 1)]) <
      ((fractional_distribution 5 [("mcq", 1)] [("basic", 1)]
        [("remember", 1)]).length : ℤ) :=
  C7_amended_remainder_bounds 5 [("mcq", 1)] [("basic", 1)] [("remember", 1)]
    (by decide) (by simp) (by simp) (by simp)
    (by simp) (by simp) (by simp)
    (by simp) (by simp) (by simp) (by decide)

/-! ### Claim C5 -/

set_option maxHeartbeats 3200000 in
/-- C5 counterexample: for the kind `q` of the allocation `C5origD`
(counts 1,1,1,1 on `d1b1, d1b2, d1b3, d2b1`), re-expanding the grouper's
sub-distributions (difficulty 3/4,1/4; blooms 1/2,1/4,1/4) with the
kind's total 4 through the same largest-remainder allocator yields
counts 2,1,1 on `d1b1, d1b2, d1b3` — not the original per-combination
counts. -/
theorem C5_counterexample :
    type_groups C5origD = [("q", C5group)] ∧
    (reexpandKind "q" C5group).map (fun p => (p.1, p.2.count)) ≠
      (C5origD.filter fun p => p.2.question_type = "q").map
        fun p => (p.1, p.2.count) := by
  have h1 : C5origD =
      [("q_d1_b1", { question_type := "q", difficulty := "d1",
                     blooms_level := "b1", count := 1 }),
       ("q_d1_b2", { question_type := "q", difficulty := "d1",
                     blooms_level := "b2", count := 1 }),
       ("q_d1_b3", { question_type := "q", difficulty := "d1",
                     blooms_level := "b3", count := 1 }),
       ("q_d2_b1", { question_type := "q", difficulty := "d2",
                     blooms_level := "b1", count := 1 })] := by
    simp only [C5origD, calculate_question_distribution, fractional_distribution,
      comboTriples, dictInsert, dictMem, mkCombo, exactCount, pyInt, comboKey,
      remainder, current_total, sorted_keys, dictKeys, fracPart, dictGet,
      dictModify, distributeRemainder, List.insertionSort, List.orderedInsert,
      List.flatMap_cons, List.flatMap_nil, List.map_cons, List.map_nil,
      List.foldl_cons, List.foldl_nil, List.append_nil, List.nil_append,
      List.any_cons, List.any_nil, List.filter_cons, List.filter_nil,
      List.find?_cons, List.find?_nil]
    norm_num
    try simp
    try norm_num
  have h2 : reexpandKind "q" C5group =
      [("q_d1_b1", { question_type := "q", difficulty := "d1",
                     blooms_level := "b1", count := 2 }),
       ("q_d1_b2", { question_type := "q", difficulty := "d1",
                     blooms_level := "b2", count := 1 }),
       ("q_d1_b3", { question_type := "q", difficulty := "d1",
                     blooms_level := "b3", count := 1 })] := by
    simp only [C5group, reexpandKind, total_for_type, difficulty_dist_for_type,
      blooms_dist_for_type, addAt,
      calculate_question_distribution, fractional_distribution,
      comboTriples, dictInsert, dictMem, mkCombo, exactCount, pyInt, comboKey,
      remainder, current_total, sorted_keys, dictKeys, fracPart, dictGet,
      dictModify, distributeRemainder, List.insertionSort, List.orderedInsert,
      List.flatMap_cons, List.flatMap_nil, List.map_cons, List.map_nil,
      List.foldl_cons, List.foldl_nil, List.append_nil, List.nil_append,
      List.any_cons, List.any_nil, List.filter_cons, List.filter_nil,
      List.find?_cons, List.find?_nil, List.sum_cons, List.sum_nil]
    norm_num
    try simp
    try norm_num
    try simp
    try norm_num
    try simp
    try norm_num
    try simp
    try norm_num
  constructor
  · rw [h1]
    decide
  · rw [h1, h2]
    decide

/-- C5 amended: re-expanding a kind's sub-distributions with the kind's
total through the same largest-remainder method reproduces the kind's
total count (the re-expanded counts sum to it), but not, in general, the
original per-combination counts. -/
theorem C5_amended_reexpansion_total (k : String) (g : List FinalCombo)
    (hg : g ≠ []) (hpos : ∀ c ∈ g, 0 < c.count)
    (hkeys : ((comboTriples [(k, 1)] (difficulty_dist_for_type g)
      (blooms_dist_for_type g)).map comboKey).Nodup) :
    total_count (reexpandKind k g) = total_for_type g := by
  have hT : 0 < total_for_type g := by
    rw [total_for_type]
    apply List.sum_pos
    · intro x hx
      obtain ⟨c, hc, rfl⟩ := List.mem_map.mp hx
      exact hpos c hc
    · simpa using hg
  have hTQ : ((total_for_type g : ℤ) : ℚ) ≠ 0 := by
    have h0 : (0:ℚ) < ((total_for_type g : ℤ) : ℚ) := by exact_mod_cast hT
    linarith
  have hvalnn : ∀ c ∈ g, 0 ≤ (c.count : ℚ) / (total_for_type g : ℚ) := by
    intro c hc
    apply div_nonneg
    · exact_mod_cast (hpos c hc).le
    · exact_mod_cast hT.le
  have hsumval : (g.map fun c => (c.count : ℚ) / (total_for_type g : ℚ)).sum
      = 1 := by
    rw [sum_map_div_q g fun c => (c.count : ℚ)]
    have hcast : (g.map fun c => (c.count : ℚ)).sum = (total_for_type g : ℚ) := by
      rw [total_for_type, Int.cast_list_sum, List.map_map]
      rfl
    rw [hcast, div_self hTQ]
  have hdd := sub_dist_foldl_sum (fun c => c.difficulty)
    (fun c => (c.count : ℚ) / (total_for_type g : ℚ)) g []
    (by simp [keysNodup])
  have hddnn := sub_dist_foldl_nonneg (fun c => c.difficulty)
    (fun c => (c.count : ℚ) / (total_for_type g : ℚ)) g [] (by simp) hvalnn
  have hbb := sub_dist_foldl_sum (fun c => c.blooms_level)
    (fun c => (c.count : ℚ) / (total_for_type g : ℚ)) g []
    (by simp [keysNodup])
  have hbbnn := sub_dist_foldl_nonneg (fun c => c.blooms_level)
    (fun c => (c.count : ℚ) / (total_for_type g : ℚ)) g [] (by simp) hvalnn
  have hddne : difficulty_dist_for_type g ≠ [] := by
    rw [difficulty_dist_for_type]
    cases g with
    | nil => exact absurd rfl hg
    | cons c g' =>
      rw [List.foldl_cons]
      exact sub_dist_foldl_ne_nil (fun x => x.difficulty)
        (fun x => (x.count : ℚ) / (total_for_type (c :: g') : ℚ)) g'
        (addAt [] c.difficulty ((c.count : ℚ) / (total_for_type (c :: g') : ℚ)))
        (addAt_ne_nil [] c.difficulty
          ((c.count : ℚ) / (total_for_type (c :: g') : ℚ)))
  have hbbne : blooms_dist_for_type g ≠ [] := by
    rw [blooms_dist_for_type]
    cases g with
    | nil => exact absurd rfl hg
    | cons c g' =>
      rw [List.foldl_cons]
      exact sub_dist_foldl_ne_nil (fun x => x.blooms_level)
        (fun x => (x.count : ℚ) / (total_for_type (c :: g') : ℚ)) g'
        (addAt [] c.blooms_level ((c.count : ℚ) / (total_for_type (c :: g') : ℚ)))
        (addAt_ne_nil [] c.blooms_level
          ((c.count : ℚ) / (total_for_type (c :: g') : ℚ)))
  rw [reexpandKind]
  apply total_count_calculate_eq (total_for_type g) [(k, 1)]
    (difficulty_dist_for_type g) (blooms_dist_for_type g) hkeys
    (by simp) hddne hbbne
  · intro p hp
    simp only [List.mem_singleton] at hp
    rw [hp]
    norm_num
  · intro p hp
    rw [difficulty_dist_for_type] at hp
    exact hddnn p hp
  · intro p hp
    rw [blooms_dist_for_type] at hp
    exact hbbnn p hp
  · simp
  · rw [difficulty_dist_for_type, hdd.1]
    simpa using hsumval
  · rw [blooms_dist_for_type, hbb.1]
    simpa using hsumval
  · exact hT.le

/-- C5 witness: the amended theorem at the concrete kind group. -/
theorem C5_amended_reexpansion_total_witness :
    total_count (reexpandKind "q" C5group) = total_for_type C5group :=
  C5_amended_reexpansion_total "q" C5group (by decide) (by decide) (by decide)

/-! ### Claim C2 -/

/-- C2 counterexample: with one failing worker the overall status is
`error`, yet the succeeding sibling's file name and question data do
appear in the history audit record, because the processing loop
accumulates into `files_generated` / `all_question_data` before hitting
the failure and the `finally` block writes whatever was accumulated. -/
theorem C2_counterexample :
    (handle_results siblingRun).status = "error" ∧
    (handle_results siblingRun).history.files_generated = [some "f1"] ∧
    (handle_results siblingRun).history.response_data =
      [("mcq", some [{ question_id := "id1", difficulty := "basic",
                       blooms_level := "remember" }])] := by
  decide

/-- C2 amended: if any worker reports a failure the whole request fails
with the first failing worker's message tagged with its kind, the client
response is the bare `HTTPException` detail (no items), and no
per-question audit events are written — but the history audit record may
still carry file names and data accumulated from siblings processed
before the failure. -/
theorem C2_amended_all_or_nothing (results : List WorkerRes)
    (h : results.any (fun r => errTruthy r.error) = true) :
    (handle_results results).status = "error" ∧
    (handle_results results).events = [] ∧
    ∃ r, results.find? (fun x => errTruthy x.error) = some r ∧
      (handle_results results).response =
        .httpError ("Error generating questions: " ++
          ("Error in " ++ r.question_type ++ ": " ++ r.error.getD "")) := by
  obtain ⟨r, f, d, hfind, heq⟩ := process_results_err results h [] []
  refine ⟨?_, ?_, r, hfind, ?_⟩ <;> simp [handle_results, heq]

/-- C2 witness: the amended theorem at the concrete failing run. -/
theorem C2_amended_all_or_nothing_witness :
    (handle_results siblingRun).status = "error" :=
  (C2_amended_all_or_nothing siblingRun (by decide)).1

/-! ### Claim C3 -/

/-- C3 counterexample: the allocator does not normalize its inputs — it
produces different allocations for a distribution and for that same
distribution normalized — and a zero-sum distribution is not rejected:
`normalize_distribution` silently maps it to the uniform distribution,
and no `InvalidDistribution` failure exists anywhere. -/
theorem C3_counterexample :
    calculate_question_distribution 10 [("a", (1:ℚ)/2)] [("b", 1)] [("c", 1)] ≠
      calculate_question_distribution 10
        (normalize_distribution [("a", (1:ℚ)/2)]) [("b", 1)] [("c", 1)] ∧
    normalize_distribution [("a", 0), ("b", 0)] =
      [("a", (1:ℚ)/2), ("b", (1:ℚ)/2)] := by
  constructor
  · have hL : total_count
        (calculate_question_distribution 10 [("a", (1:ℚ)/2)] [("b", 1)] [("c", 1)]) = 6 := by
      norm_num [calculate_question_distribution, fractional_distribution, comboTriples,
        dictInsert, dictMem, mkCombo, exactCount, pyInt, comboKey, remainder,
        current_total, sorted_keys, dictKeys, fracPart, dictGet, dictModify,
        distributeRemainder, total_count, List.insertionSort, List.orderedInsert]
      decide
    have hR : total_count
        (calculate_question_distribution 10
          (normalize_distribution [("a", (1:ℚ)/2)]) [("b", 1)] [("c", 1)]) = 10 := by
      norm_num [normalize_distribution, calculate_question_distribution,
        fractional_distribution, comboTriples,
        dictInsert, dictMem, mkCombo, exactCount, pyInt, comboKey, remainder,
        current_total, sorted_keys, dictKeys, fracPart, dictGet, dictModify,
        distributeRemainder, total_count, List.insertionSort, List.orderedInsert]
    intro heq
    rw [heq, hR] at hL
    exact absurd hL (by decide)
  · norm_num [normalize_distribution]

/-- C3 amended: nothing fails and nothing is rejected.
`normalize_distribution` (the only normalization code, and it is not
called by the allocator) turns any non-empty distribution — including
zero-sum ones, which become uniform — into one summing to 1; and the
allocator, handed an empty kind distribution, just returns the empty
allocation instead of surfacing an `InvalidDistribution` error. -/
theorem C3_amended_no_failure (distribution : Dist) (hne : distribution ≠ []) :
    ((normalize_distribution distribution).map Prod.snd).sum = 1 ∧
    ∀ (total_questions : ℤ) (difficulty_dist blooms_dist : Dist),
      calculate_question_distribution total_questions [] difficulty_dist blooms_dist
        = [] := by
  constructor
  · have hlen0 : distribution.length ≠ 0 := by simpa using hne
    have hlen : (distribution.length : ℚ) ≠ 0 := Nat.cast_ne_zero.mpr hlen0
    by_cases ht : (distribution.map Prod.snd).sum = 0
    · have hform : normalize_distribution distribution =
          distribution.map fun p => (p.1, 1 / (distribution.length : ℚ)) := by
        rw [normalize_distribution]
        simp [ht]
      rw [hform, List.map_map]
      show (distribution.map fun _ => 1 / (distribution.length : ℚ)).sum = 1
      rw [sum_map_const_q]
      field_simp
    · have hform : normalize_distribution distribution =
          distribution.map fun p => (p.1, p.2 / (distribution.map Prod.snd).sum) := by
        rw [normalize_distribution]
        simp [ht]
      rw [hform, List.map_map]
      show (distribution.map fun p =>
        Prod.snd p / (distribution.map Prod.snd).sum).sum = 1
      rw [sum_map_div_q distribution Prod.snd ((distribution.map Prod.snd).sum)]
      exact div_self ht
  · intro total_questions difficulty_dist blooms_dist
    simp [calculate_question_distribution, fractional_distribution, comboTriples,
      sorted_keys, dictKeys, distributeRemainder, List.insertionSort]

/-- C3 witness: the amended theorem at the zero-sum two-label input. -/
theorem C3_amended_no_failure_witness :
    ((normalize_distribution [("a", (0:ℚ)), ("b", 0)]).map Prod.snd).sum = 1 :=
  (C3_amended_no_failure [("a", (0:ℚ)), ("b", 0)] (by simp)).1

/-! ### Claim C4 -/

/-- C4 counterexample: with a failing context fetch the request does not
fail — `generate_content_summary_sync` swallows the exception into an
error-message string, the orchestrator spawns one worker per kind group
(two here, not zero), and both the response status and the history audit
record read `success`, not a failed outcome. -/
theorem C4_counterexample :
    (generate_questions_model 2 [("mcq", (1:ℚ)/2), ("tf", (1:ℚ)/2)]
        [("d", 1)] [("b", 1)] "c".data (.error "x".data)
        alwaysOkWorker).outcome.status = "success" ∧
    (generate_questions_model 2 [("mcq", (1:ℚ)/2), ("tf", (1:ℚ)/2)]
        [("d", 1)] [("b", 1)] "c".data (.error "x".data)
        alwaysOkWorker).spawned.length = 2 ∧
    (generate_questions_model 2 [("mcq", (1:ℚ)/2), ("tf", (1:ℚ)/2)]
        [("d", 1)] [("b", 1)] "c".data (.error "x".data)
        alwaysOkWorker).outcome.history.status = "success" := by
  refine ⟨?_, ?_, ?_⟩ <;>
    (simp only [generate_questions_model, alwaysOkWorker, handle_results,
    process_results, errTruthy, type_groups, groupAdd,
    difficulty_dist_for_type, blooms_dist_for_type, addAt, total_for_type,
    calculate_question_distribution, fractional_distribution, comboTriples,
    dictInsert, dictMem, mkCombo, exactCount, pyInt, comboKey, remainder,
    current_total, sorted_keys, dictKeys, fracPart, dictGet, dictModify,
    distributeRemainder, List.insertionSort, List.orderedInsert,
    List.flatMap_cons, List.flatMap_nil, List.map_cons, List.map_nil,
    List.foldl_cons, List.foldl_nil, List.append_nil, List.nil_append,
    List.any_cons, List.any_nil, List.filter_cons, List.filter_nil,
    List.find?_cons, List.find?_nil]
     try norm_num
     try simp [alwaysOkWorker, process_results, errTruthy])

/-- The history record's status always equals the outcome status. -/
theorem handle_results_history_status (results : List WorkerRes) :
    (handle_results results).history.status = (handle_results results).status := by
  unfold handle_results
  cases process_results results [] [] <;> rfl

/-- C4 amended: a context-fetch failure is converted into an error
string used as the shared summary; the pipeline still spawns exactly one
worker per kind group, and the outcome (mirrored in the history audit
record) is decided solely by the workers — there is no
`ContextUnavailable` failure path. -/
theorem C4_amended_fetch_failure_ignored (total_questions : ℤ)
    (question_type_dist difficulty_dist blooms_dist : Dist)
    (chapter_id e : List Char) (runWorker : WorkerCall → WorkerRes) :
    (generate_questions_model total_questions question_type_dist difficulty_dist
        blooms_dist chapter_id (.error e) runWorker).spawned.length =
      (type_groups (calculate_question_distribution total_questions
        question_type_dist difficulty_dist blooms_dist)).length ∧
    (generate_questions_model total_questions question_type_dist difficulty_dist
        blooms_dist chapter_id (.error e) runWorker).outcome.status =
      (if ((generate_questions_model total_questions question_type_dist
          difficulty_dist blooms_dist chapter_id (.error e) runWorker).spawned.map
            runWorker).any (fun r => errTruthy r.error)
       then "error" else "success") ∧
    (generate_questions_model total_questions question_type_dist difficulty_dist
        blooms_dist chapter_id (.error e) runWorker).outcome.history.status =
      (generate_questions_model total_questions question_type_dist difficulty_dist
        blooms_dist chapter_id (.error e) runWorker).outcome.status := by
  refine ⟨?_, ?_, ?_⟩
  · simp [generate_questions_model]
  · exact handle_results_status _
  · exact handle_results_history_status _

/-! ### Claim C6 -/

/-- C6 counterexample: the two kind distributions are equal as finite
maps (one is a permutation of the other), so under any fixed total order
on combination keys the tie among equal fractional parts would be broken
identically — yet the allocator returns different mappings, because its
tie-break is the dict's construction order, not a fixed order on the
key. -/
theorem C6_counterexample :
    ([("z", (1:ℚ)/2), ("a", (1:ℚ)/2)] : Dist).Perm
      [("a", (1:ℚ)/2), ("z", (1:ℚ)/2)] ∧
    calculate_question_distribution 1 [("z", (1:ℚ)/2), ("a", (1:ℚ)/2)]
        [("d", 1)] [("b", 1)] ≠
      calculate_question_distribution 1 [("a", (1:ℚ)/2), ("z", (1:ℚ)/2)]
        [("d", 1)] [("b", 1)] := by
  constructor
  · exact List.Perm.swap _ _ _
  · have h1 : calculate_question_distribution 1 [("z", (1:ℚ)/2), ("a", (1:ℚ)/2)]
        [("d", 1)] [("b", 1)] =
        [("z_d_b", { question_type := "z", difficulty := "d",
                     blooms_level := "b", count := 1 })] := by
      simp only [calculate_question_distribution, fractional_distribution,
        comboTriples, dictInsert, dictMem, mkCombo, exactCount, pyInt, comboKey,
        remainder, current_total, sorted_keys, dictKeys, fracPart, dictGet,
        dictModify, distributeRemainder, List.insertionSort, List.orderedInsert,
        List.flatMap_cons, List.flatMap_nil, List.map_cons, List.map_nil,
        List.foldl_cons, List.foldl_nil, List.append_nil, List.nil_append,
        List.any_cons, List.any_nil, List.filter_cons, List.filter_nil,
        List.find?_cons, List.find?_nil]
      norm_num
      try simp
    have h2 : calculate_question_distribution 1 [("a", (1:ℚ)/2), ("z", (1:ℚ)/2)]
        [("d", 1)] [("b", 1)] =
        [("a_d_b", { question_type := "a", difficulty := "d",
                     blooms_level := "b", count := 1 })] := by
      simp only [calculate_question_distribution, fractional_distribution,
        comboTriples, dictInsert, dictMem, mkCombo, exactCount, pyInt, comboKey,
        remainder, current_total, sorted_keys, dictKeys, fracPart, dictGet,
        dictModify, distributeRemainder, List.insertionSort, List.orderedInsert,
        List.flatMap_cons, List.flatMap_nil, List.map_cons, List.map_nil,
        List.foldl_cons, List.foldl_nil, List.append_nil, List.nil_append,
        List.any_cons, List.any_nil, List.filter_cons, List.filter_nil,
        List.find?_cons, List.find?_nil]
      norm_num
      try simp
    rw [h1, h2]
    decide

/-- C6 amended: the ranking is by descending fractional part, and ties
are broken by the stable sort's preservation of the dict's construction
order (the enumeration order of the input distributions), not by a fixed
total order on the combination key; for identical input lists the
result is reproducible. -/
theorem C6_amended_stable_ranking (m : List (String × Combo)) :
    (sorted_keys m).Perm (dictKeys m) ∧
    List.Sorted (fun k1 k2 => fracPart m k2 ≤ fracPart m k1) (sorted_keys m) ∧
    ∀ a b, List.Sublist [a, b] (dictKeys m) → fracPart m b ≤ fracPart m a →
      List.Sublist [a, b] (sorted_keys m) := by
  haveI : IsTotal String (fun k1 k2 => fracPart m k2 ≤ fracPart m k1) :=
    ⟨fun a b => le_total _ _⟩
  haveI : IsTrans String (fun k1 k2 => fracPart m k2 ≤ fracPart m k1) :=
    ⟨fun a b c h1 h2 => le_trans h2 h1⟩
  refine ⟨List.perm_insertionSort _ _, List.sorted_insertionSort _ _, ?_⟩
  intro a b hsub hle
  exact List.pair_sublist_insertionSort hle hsub

/-- C6 witness: at the tie input, the construction-order pair stays in
order in the ranking. -/
theorem C6_amended_stable_ranking_witness :
    List.Sublist ["z_d_b", "a_d_b"] (sorted_keys (fractional_distribution 1
      [("z", (1:ℚ)/2), ("a", (1:ℚ)/2)] [("d", 1)] [("b", 1)])) := by
  have hm : fractional_distribution 1 [("z", (1:ℚ)/2), ("a", (1:ℚ)/2)]
      [("d", 1)] [("b", 1)] =
      [("z_d_b", { question_type := "z", difficulty := "d", blooms_level := "b",
                   exact_count := 1/2, count := 0 }),
       ("a_d_b", { question_type := "a", difficulty := "d", blooms_level := "b",
                   exact_count := 1/2, count := 0 })] := by
    simp only [fractional_distribution, comboTriples, dictInsert, dictMem,
      mkCombo, exactCount, pyInt, comboKey,
      List.flatMap_cons, List.flatMap_nil, List.map_cons, List.map_nil,
      List.foldl_cons, List.foldl_nil, List.append_nil, List.nil_append,
      List.any_cons, List.any_nil]
    simp
    norm_num
  apply (C6_amended_stable_ranking _).2.2 "z_d_b" "a_d_b"
  · rw [hm]
    decide
  · rw [hm]
    simp [fracPart, dictGet]

end QuestionGen
